import Mathlib

/-!
Shallow embedding of the colruyt-scraper ingestion-and-diff pipeline.

The definitions below are translated from the repository sources:
comparers/comparer.ts (map-based revision), utils/RequestHandler.ts
(the revision with retryableStatusCodes and exponential backoff),
scrapers (getAllProducts / getAllPromotions), the ingestion writer
(handleStaleData / saveProducts / savePromotions / scraper) and
the sequelize model declarations under models/.

Numeric price values are modelled as rationals, nullable columns as
Option, calendar days as integers, and JavaScript truthiness and
nullish coalescing by explicit helper functions.
-/

/-- Price tiers from the PriceChangeType enum in models/PriceChange.ts:
BASIC has value "P1", QUANTITY has value "P2". -/
inductive PriceChangeType where
  | BASIC
  | QUANTITY
deriving DecidableEq, Repr

/-- Row of the price table (models/Price.ts) as read by the comparer.
The primary key is the auto-increment priceId; date is a DATEONLY day
number. The model declares no unique index besides the primary key.
Columns not read by the verified code paths are collapsed into
otherAttrs. -/
structure Price where
  priceId : Nat
  productId : String
  date : Int
  basicPrice : Option ℚ
  quantityPrice : Option ℚ
  isPromoActive : Option String
  otherAttrs : String
deriving DecidableEq, Repr

/-- Change record built by the comparer (a Partial PriceChange object in
the code); existing rows read back from the pricechange table carry the
same fields that the comparer consults (productId and priceChangeType). -/
structure PriceChange where
  productId : String
  priceChange : ℚ
  priceChangePercentage : ℚ
  involvesPromotion : Bool
  oldPrice : ℚ
  newprice : ℚ
  priceChangeType : PriceChangeType
deriving DecidableEq, Repr

/-- JavaScript truthiness of an optional number: null, undefined and 0 are
falsy (NaN does not arise over the rationals). -/
def jsTruthyNum : Option ℚ → Bool
  | none => false
  | some v => decide (v ≠ 0)

/-- JavaScript Boolean() of an optional string: null, undefined and the
empty string are falsy. -/
def jsTruthyStr : Option String → Bool
  | none => false
  | some s => decide (s ≠ "")

/-- Value of a JavaScript numeric expression that distinguishes undefined
(absent row or property), null (a fetched row whose column is SQL NULL:
sequelize returns null, not undefined, for such columns) and a number.
The comparer's test oldPrice !== undefined is true for null, so the two
absent-like values behave differently and are kept apart. -/
inductive JsNum where
  | undef
  | null
  | num (v : ℚ)
deriving DecidableEq, Repr

/-- Optional chaining row?.column on a price row: undefined when the row
is absent, null when the row is present but the column is SQL NULL, and
the number otherwise. -/
def jsOptChain (row : Option Price) (col : Price → Option ℚ) : JsNum :=
  match row with
  | none => JsNum.undef
  | some r =>
    match col r with
    | none => JsNum.null
    | some v => JsNum.num v

/-- JavaScript nullish coalescing a ?? b between possibly-absent numeric
expressions: undefined and null fall through to b, a number does not. -/
def jsNullishNum (a b : JsNum) : JsNum :=
  match a with
  | JsNum.num v => JsNum.num v
  | _ => b

/-- JavaScript nullish coalescing a ?? b against a plain number b. -/
def jsNullishQ (a : JsNum) (b : ℚ) : ℚ :=
  match a with
  | JsNum.num v => v
  | _ => b

/-- Lookup in a JS Map built as new Map over (key x, x) pairs: later
entries overwrite earlier ones, so the lookup returns the last element
of the list with the requested key. -/
def jsMapLookup [DecidableEq β] (key : α → β) (xs : List α) (k : β) : Option α :=
  xs.foldl (fun acc x => if key x = k then some x else acc) none

/-- Emission test of processSinglePriceType, as a function of the two map
lookups for the product, the baseline value and the observed value:
hasPriceChanged, that is oldPrice !== undefined && newPrice !== oldPrice
(false for an undefined baseline, true for a null baseline because a
number is never strictly equal to null, a numeric comparison otherwise),
or isNewRecord (no earlier price row or no existing change record). -/
def emitB (earlier : Option Price) (existing : Option PriceChange)
    (old : JsNum) (v : ℚ) : Bool :=
  (match old with
   | JsNum.undef => false
   | JsNum.null => true
   | JsNum.num o => decide (v ≠ o)) || earlier.isNone || existing.isNone

/-- Change amount of the emitted record: new minus (old ?? 0) when the
change test fires - the whole of new when the baseline is null - and 0
otherwise. This is the record content stated on the specification side;
it is compared against the code's output. -/
def specChange (old : JsNum) (v : ℚ) : ℚ :=
  match old with
  | JsNum.undef => 0
  | JsNum.null => v
  | JsNum.num o => if v ≠ o then v - o else 0

/-- Percentage of the emitted record: priceChange divided by old when the
baseline is a number greater than 0, else 0 (an undefined, null or
non-positive baseline is falsy or fails the positivity test). -/
def specPercentage (old : JsNum) (v : ℚ) : ℚ :=
  match old with
  | JsNum.num o => if 0 < o then specChange old v / o else 0
  | _ => 0

/-- Change record emitted for a product, tier, promo flag, baseline old
value and observed value v: priceChange is v minus a numeric old, the
whole of v for a null old and 0 in the first-observation case; the
percentage is priceChange / old when old is a positive number and 0
otherwise; oldPrice falls back to v (old ?? newPrice) when the baseline
is undefined or null. -/
def specRecord (pid : String) (ptype : PriceChangeType) (promo : Bool)
    (old : JsNum) (v : ℚ) : PriceChange :=
  { productId := pid
    priceChange := specChange old v
    priceChangePercentage := specPercentage old v
    involvesPromotion := promo
    oldPrice := jsNullishQ old v
    newprice := v
    priceChangeType := ptype }

/-- processSinglePriceType from comparers/comparer.ts. Returns the emitted
record together with its classification: true means the record is pushed
to updatedPriceChanges (an existing change record was found), false means
newPriceChanges; none means nothing is emitted. oldPrice is the value of
an optional-chaining expression and is undefined, null or a number; the
code's oldPrice !== undefined is true for a null baseline, and ?? lets
both undefined and null fall through. The string map key
productId ++ "-" ++ priceType of the code is modelled as the pair of the
two components; the encodings are in bijection because both type tags
have the same length. -/
def processSinglePriceType (earlierPriceMap : String → Option Price)
    (existingPriceChangeMap : String → PriceChangeType → Option PriceChange)
    (laterPrice : Price) (priceType : PriceChangeType)
    (newPrice : ℚ) (oldPrice : JsNum) : Option (Bool × PriceChange) :=
  let existingPriceChange := existingPriceChangeMap laterPrice.productId priceType
  let earlierPrice := earlierPriceMap laterPrice.productId
  let hasPriceChanged : Bool :=
    match oldPrice with
    | JsNum.undef => false
    | JsNum.null => true
    | JsNum.num o => decide (newPrice ≠ o)
  let isNewRecord : Bool := earlierPrice.isNone || existingPriceChange.isNone
  if hasPriceChanged || isNewRecord then
    let change : ℚ := if hasPriceChanged then newPrice - jsNullishQ oldPrice 0 else 0
    let percentage : ℚ :=
      match oldPrice with
      | JsNum.num o => if hasPriceChanged && decide (0 < o) then change / o else 0
      | _ => 0
    some (existingPriceChange.isSome,
      { productId := laterPrice.productId
        priceChange := change
        priceChangePercentage := percentage
        involvesPromotion := jsTruthyStr laterPrice.isPromoActive
        oldPrice := jsNullishQ oldPrice newPrice
        newprice := newPrice
        priceChangeType := priceType })
  else
    none

/-- One iteration of the main loop of getPriceChange: the P1 block runs
when basicPrice is truthy with earlierPrice?.basicPrice as baseline
(undefined without a yesterday row, null when the stored column is NULL),
then the P2 block when quantityPrice is truthy with the earlier quantity
price as baseline, falling back to the earlier basic price through
nullish coalescing (a present quantity price of 0 is not overridden; a
null quantity column does fall through). -/
def rowChanges (earlierPriceMap : String → Option Price)
    (existingPriceChangeMap : String → PriceChangeType → Option PriceChange)
    (laterPrice : Price) : List (Bool × PriceChange) :=
  let earlierPrice := earlierPriceMap laterPrice.productId
  let p1 :=
    if jsTruthyNum laterPrice.basicPrice then
      (processSinglePriceType earlierPriceMap existingPriceChangeMap laterPrice
        PriceChangeType.BASIC (laterPrice.basicPrice.getD 0)
        (jsOptChain earlierPrice Price.basicPrice)).toList
    else []
  let p2 :=
    if jsTruthyNum laterPrice.quantityPrice then
      (processSinglePriceType earlierPriceMap existingPriceChangeMap laterPrice
        PriceChangeType.QUANTITY (laterPrice.quantityPrice.getD 0)
        (jsNullishNum (jsOptChain earlierPrice Price.quantityPrice)
          (jsOptChain earlierPrice Price.basicPrice))).toList
    else []
  p1 ++ p2

/-- Map of yesterday's prices by productId built by getPriceChange. -/
def earlierMapOf (earlierList : List Price) : String → Option Price :=
  jsMapLookup Price.productId earlierList

/-- Map of existing change records keyed by productId and tier built by
getPriceChange. -/
def existingMapOf (priceChanges : List PriceChange) :
    String → PriceChangeType → Option PriceChange :=
  fun pid ptype =>
    jsMapLookup (fun pc => (pc.productId, pc.priceChangeType)) priceChanges (pid, ptype)

/-- All emissions of the traversal of getPriceChange, in order, each paired
with its classification flag. -/
def allChanges (earlierList laterList : List Price)
    (priceChanges : List PriceChange) : List (Bool × PriceChange) :=
  laterList.flatMap
    (rowChanges (earlierMapOf earlierList) (existingMapOf priceChanges))

/-- getPriceChange from comparers/comparer.ts (map-based revision). The
two pushes of the traversal are recovered by filtering the emissions on
the classification flag: updatedPriceChanges collects the flagged
records, newPriceChanges the rest, both in traversal order. -/
def getPriceChange (earlierList laterList : List Price)
    (priceChanges : List PriceChange) : List PriceChange × List PriceChange :=
  let all := allChanges earlierList laterList priceChanges
  ((all.filter (fun x => x.1)).map (fun x => x.2),
   (all.filter (fun x => !x.1)).map (fun x => x.2))

/-- Yesterday's baseline value for a product and tier as used by the main
loop: earlierPrice?.basicPrice for BASIC, and for QUANTITY the earlier
row's quantityPrice with nullish fallback to its basicPrice; the result
distinguishes a missing row (undefined) from a NULL column (null). -/
def baselineValue (earlierPriceMap : String → Option Price) (pid : String) :
    PriceChangeType → JsNum
  | PriceChangeType.BASIC => jsOptChain (earlierPriceMap pid) Price.basicPrice
  | PriceChangeType.QUANTITY =>
      jsNullishNum (jsOptChain (earlierPriceMap pid) Price.quantityPrice)
        (jsOptChain (earlierPriceMap pid) Price.basicPrice)

/-- Value of a today row at a given tier. -/
def tierValue (p : Price) : PriceChangeType → Option ℚ
  | PriceChangeType.BASIC => p.basicPrice
  | PriceChangeType.QUANTITY => p.quantityPrice

/-- Emission condition for a product and tier in terms of the two maps of
getPriceChange: the baseline exists and differs from the observed value,
or no yesterday row, or no existing change record. -/
def emitConditionB (earlierPriceMap : String → Option Price)
    (existingPriceChangeMap : String → PriceChangeType → Option PriceChange)
    (pid : String) (ptype : PriceChangeType) (v : ℚ) : Bool :=
  emitB (earlierPriceMap pid) (existingPriceChangeMap pid ptype)
    (baselineValue earlierPriceMap pid ptype) v

/-- Axios-style error observed on one failed attempt of proxiedRequest:
response carries the HTTP status when the server answered, code carries
the transport error code otherwise (ECONNABORTED on timeout). -/
structure ReqError where
  response : Option Nat
  code : Option String
deriving DecidableEq, Repr

/-- Outcome of one attempt of the retry loop. -/
inductive Outcome where
  | success (v : Nat)
  | failure (e : ReqError)
deriving DecidableEq, Repr

/-- Result of a whole run of proxiedRequest: the returned response data or
the thrown error. -/
inductive ReqResult where
  | ok (v : Nat)
  | thrown (e : ReqError)
deriving DecidableEq, Repr

/-- Retryable HTTP status codes from proxiedRequest. -/
def retryableStatusCodes : List Nat := [408, 500, 502, 503, 504]

/-- isRetryable from proxiedRequest: a response whose status is in the
retryable list, or the ECONNABORTED transport code. -/
def isRetryable (e : ReqError) : Bool :=
  (match e.response with
   | some s => retryableStatusCodes.contains s
   | none => false) || decide (e.code = some "ECONNABORTED")

/-- Maximum attempt count of the RequestHandler (maxTries field). -/
def maxTries : Nat := 10

/-- Exponential backoff with jitter from proxiedRequest: 2 to the attempt
times 1000 milliseconds plus a jitter drawn in the interval 0 to 1000. -/
def delayTime (attempt : Nat) (jitter : ℚ) : ℚ := 2 ^ attempt * 1000 + jitter

/-- Retry loop of proxiedRequest over a trace of attempt outcomes. attempt
is the failure counter, incremented before the budget check exactly as the
code does; the returned list records the backoff delays in order, with the
jitter of the n-th retry drawn from the jitter stream at n. none means the
trace is shorter than the number of attempts the loop makes. -/
def runRequest (mt : Nat) (jitter : Nat → ℚ) : Nat → List Outcome → Option (ReqResult × List ℚ)
  | _, [] => none
  | _, Outcome.success v :: _ => some (ReqResult.ok v, [])
  | attempt, Outcome.failure e :: rest =>
    if attempt + 1 ≥ mt then some (ReqResult.thrown e, [])
    else if isRetryable e then
      (runRequest mt jitter (attempt + 1) rest).map
        (fun rd => (rd.1, delayTime (attempt + 1) (jitter (attempt + 1)) :: rd.2))
    else some (ReqResult.thrown e, [])

/-- Consecutive backoff delays recorded by a run that starts at failure
counter 0: the n-th retry sleeps for delayTime n with the n-th jitter. -/
def backoffDelays (jitter : Nat → ℚ) (n : Nat) : List ℚ :=
  (List.range n).map (fun i => delayTime (i + 1) (jitter (i + 1)))

/-- Subset of the axios options object relevant to proxy selection; the
remaining fields (timeout, headers, params) are carried unchanged by the
object spread and are omitted. none models an absent httpAgent key;
agents are identified by natural numbers standing for the pool entries. -/
structure AxiosOptions where
  httpAgent : Option Nat
deriving DecidableEq, Repr

/-- Proxy selection of one attempt: the pool entry at index
Math.floor(r times pool size) for a random draw r in the unit interval. -/
def selectAgent (agents : List Nat) (r : ℚ) : Option Nat :=
  agents.get? (Int.floor (r * agents.length)).toNat

/-- Object spread performed each iteration of the retry loop: the literal
places httpAgent first and spreads the previous options after it, so a
httpAgent key already present in the previous options wins over the
freshly selected agent. -/
def spreadHttpAgent (agent : Option Nat) (opts : AxiosOptions) : AxiosOptions :=
  match opts.httpAgent with
  | some a => { httpAgent := some a }
  | none => { httpAgent := agent }

/-- Options object used by attempt k (counting from 0) of the retry loop
when the proxy pool is enabled: every iteration draws from the random
stream, selects an agent and merges it into the options variable. -/
def optionsAtAttempt (agents : List Nat) (r : Nat → ℚ) : Nat → AxiosOptions
  | 0 => spreadHttpAgent (selectAgent agents (r 0)) { httpAgent := none }
  | k + 1 => spreadHttpAgent (selectAgent agents (r (k + 1))) (optionsAtAttempt agents r k)

/-- Scan of the original page promises for a rejection, in order: this is
what the awaited Promise.all observes. -/
def firstError : List (Except String (List α)) → Option String
  | [] => none
  | Except.error e :: _ => some e
  | Except.ok _ :: rest => firstError rest

/-- Accumulation of getAllProducts / getAllPromotions over the per-page
outcomes. The then-handlers push each fulfilled page's items into the
accumulator, but those handlers sit on derived promises that are
discarded, while the function awaits Promise.all of the original page
promises: if any page rejected, the await throws and the accumulated
items are lost; the per-page catch handlers only silence the derived
chain. -/
def collectAllPages (pages : List (Except String (List α))) : Except String (List α) :=
  match firstError pages with
  | some e => Except.error e
  | none =>
    Except.ok (pages.flatMap (fun p =>
      match p with
      | Except.ok items => items
      | Except.error _ => []))

/-- Incoming API product as consumed by the ingestion writer: identity
columns, the nested daily price object that saveProducts spreads into the
price row (its basic and quantity components), and the remaining upserted
columns collapsed into attrs. -/
structure ApiProduct where
  productId : String
  technicalArticleNumber : String
  attrs : String
  priceBasicPrice : Option ℚ
  priceQuantityPrice : Option ℚ
deriving DecidableEq, Repr

/-- Incoming API promotion: the upserted columns (attrs aggregates those
not otherwise consulted), the comma-separated linked technical article
numbers, and the optional benefit and text lists whose entries are
collapsed into one string each. none models an absent (undefined) field;
a present empty list is still truthy in JavaScript and is iterated. -/
structure ApiPromotion where
  promotionId : String
  attrs : String
  linkedTechnicalArticleNumber : Option String
  benefit : Option (List String)
  text : Option (List String)
deriving DecidableEq, Repr

/-- Stored product row: the columns written by the product upsert. -/
structure ProductRow where
  productId : String
  technicalArticleNumber : String
  attrs : String
deriving DecidableEq, Repr

/-- Stored price row (models/Price.ts): auto-increment priceId primary
key, productId foreign key, DATEONLY date, price columns. The model
declares no unique index on productId and date. -/
structure PriceRow where
  priceId : Nat
  productId : String
  date : Int
  basicPrice : Option ℚ
  quantityPrice : Option ℚ
deriving DecidableEq, Repr

/-- Stored promotion-to-product link row. -/
structure PromotionProductRow where
  promotionId : String
  productId : String
deriving DecidableEq, Repr

/-- Stored benefit row, tagged with its owning promotion. -/
structure BenefitRow where
  promotionId : String
  attrs : String
deriving DecidableEq, Repr

/-- Stored promotion text row, tagged with its owning promotion. -/
structure TextRow where
  promotionId : String
  attrs : String
deriving DecidableEq, Repr

/-- Relational store state for the tables the ingestion writer owns.
nextPriceId models the auto-increment sequence of the price table. -/
structure DB where
  products : List ProductRow
  prices : List PriceRow
  nextPriceId : Nat
  promotions : List ApiPromotion
  promotionProducts : List PromotionProductRow
  benefits : List BenefitRow
  texts : List TextRow
deriving DecidableEq, Repr

/-- De-duplication through a JS Map used by saveProducts and
savePromotions: keys keep their first-occurrence order and the value
stored for a key is its last occurrence in the input list. -/
def mapDedupe [DecidableEq β] (key : α → β) (xs : List α) : List α :=
  xs.foldl (fun acc x =>
    if acc.any (fun y => key y = key x) then
      acc.map (fun y => if key y = key x then x else y)
    else acc ++ [x]) []

/-- bulkCreate with updateOnDuplicate over all columns: rows whose key is
already stored have every attribute overwritten, new keys are appended. -/
def upsertBy [DecidableEq β] (key : α → β) (table incoming : List α) : List α :=
  incoming.foldl (fun tbl x =>
    if tbl.any (fun y => key y = key x) then
      tbl.map (fun y => if key y = key x then x else y)
    else tbl ++ [x]) table

/-- Product columns kept by the product upsert (the stray nested price
property of the API object is not a model attribute and is dropped). -/
def productRowOf (p : ApiProduct) : ProductRow :=
  { productId := p.productId
    technicalArticleNumber := p.technicalArticleNumber
    attrs := p.attrs }

/-- Price row built by saveProducts for one product: the spread price
object plus the productId; the DATEONLY date column takes its default,
the current day, and the priceId the next auto-increment value. -/
def priceRowOf (pid : Nat) (today : Int) (p : ApiProduct) : PriceRow :=
  { priceId := pid
    productId := p.productId
    date := today
    basicPrice := p.priceBasicPrice
    quantityPrice := p.priceQuantityPrice }

/-- Price rows inserted by the bulk insert of saveProducts, with
consecutive auto-increment ids. The insert runs with ignoreDuplicates,
but the price table declares no unique constraint other than the
auto-increment primary key (models/Price.ts), so no row is ever skipped
and every product contributes a fresh row. -/
def pricesFor (nextId : Nat) (today : Int) : List ApiProduct → List PriceRow
  | [] => []
  | p :: rest => priceRowOf nextId today p :: pricesFor (nextId + 1) today rest

/-- saveProducts from the ingestion writer: de-duplicate the incoming
products by productId (last occurrence wins), upsert all product columns,
then bulk-insert one price row per product dated today. -/
def saveProducts (today : Int) (apiProducts : List ApiProduct) (db : DB) : DB :=
  let uniqueProducts := mapDedupe ApiProduct.productId apiProducts
  { db with
    products := upsertBy ProductRow.productId db.products (uniqueProducts.map productRowOf)
    prices := db.prices ++ pricesFor db.nextPriceId today uniqueProducts
    nextPriceId := db.nextPriceId + uniqueProducts.length }

/-- handleStaleData from the ingestion writer: delete the stored products
and promotions whose primary key is absent from the snapshot, cascading
to their dependent rows (the cascade is the relational-store capability
the code relies on for its destroy calls), then delete the price rows
strictly older than the retention cutoff, the current day minus
AMOUNT_OF_DAYS_KEPT days (default 90). -/
def handleStaleData (today retentionDays : Int) (apiProducts : List ApiProduct)
    (apiPromotions : List ApiPromotion) (db : DB) : DB :=
  let apiProductIds := apiProducts.map ApiProduct.productId
  let staleProductIds := (db.products.map ProductRow.productId).filter
    (fun pid => ¬ apiProductIds.contains pid)
  let apiPromotionIds := apiPromotions.map ApiPromotion.promotionId
  let stalePromotionIds := (db.promotions.map ApiPromotion.promotionId).filter
    (fun pid => ¬ apiPromotionIds.contains pid)
  let cutoff := today - retentionDays
  { db with
    products := db.products.filter (fun r => ¬ staleProductIds.contains r.productId)
    prices := (db.prices.filter (fun r => ¬ staleProductIds.contains r.productId)).filter
      (fun r => ¬ r.date < cutoff)
    promotions := db.promotions.filter (fun r => ¬ stalePromotionIds.contains r.promotionId)
    promotionProducts := db.promotionProducts.filter
      (fun r => ¬ staleProductIds.contains r.productId ∧ ¬ stalePromotionIds.contains r.promotionId)
    benefits := db.benefits.filter (fun r => ¬ stalePromotionIds.contains r.promotionId)
    texts := db.texts.filter (fun r => ¬ stalePromotionIds.contains r.promotionId) }

/-- Link rows derived for one promotion by savePromotions: when the
linkedTechnicalArticleNumber string is truthy, split it on commas, trim
each entry, resolve it against the current product batch (first match),
silently drop the unresolved ones (filter Boolean also drops an empty
productId), and emit one link row per resolved product. -/
def linksOf (apiProducts : List ApiProduct) (promo : ApiPromotion) : List PromotionProductRow :=
  match promo.linkedTechnicalArticleNumber with
  | none => []
  | some s =>
    if s = "" then []
    else
      let tans := (s.splitOn ",").map String.trim
      let productIds := (tans.filterMap (fun tan =>
        (apiProducts.find? (fun p => p.technicalArticleNumber = tan)).map
          ApiProduct.productId)).filter (fun pid => pid ≠ "")
      productIds.map (fun pid => { promotionId := promo.promotionId, productId := pid })

/-- Benefit rows derived for one promotion: one per entry of a present
benefit list. -/
def benefitsOf (promo : ApiPromotion) : List BenefitRow :=
  match promo.benefit with
  | none => []
  | some bs => bs.map (fun b => { promotionId := promo.promotionId, attrs := b })

/-- Text rows derived for one promotion: one per entry of a present text
list. -/
def textsOf (promo : ApiPromotion) : List TextRow :=
  match promo.text with
  | none => []
  | some ts => ts.map (fun t => { promotionId := promo.promotionId, attrs := t })

/-- savePromotions from the ingestion writer: de-duplicate by promotionId,
upsert all promotion columns, destroy the existing link, benefit and text
rows of every promotion in the batch, then re-derive and bulk-insert
them. The re-inserted rows follow a full destroy of their keys and the
benefit and text tables declare no unique constraints, so the
duplicate-ignoring flag of the inserts drops nothing. -/
def savePromotions (apiPromotions : List ApiPromotion) (apiProducts : List ApiProduct)
    (db : DB) : DB :=
  let uniquePromotions := mapDedupe ApiPromotion.promotionId apiPromotions
  let apiPromotionIds := uniquePromotions.map ApiPromotion.promotionId
  { db with
    promotions := upsertBy ApiPromotion.promotionId db.promotions uniquePromotions
    promotionProducts :=
      db.promotionProducts.filter (fun r => ¬ apiPromotionIds.contains r.promotionId)
        ++ uniquePromotions.flatMap (linksOf apiProducts)
    benefits :=
      db.benefits.filter (fun r => ¬ apiPromotionIds.contains r.promotionId)
        ++ uniquePromotions.flatMap benefitsOf
    texts :=
      db.texts.filter (fun r => ¬ apiPromotionIds.contains r.promotionId)
        ++ uniquePromotions.flatMap textsOf }

/-- Transaction body of the scraper entry point: stale removal, then the
product and price upsert, then the promotion upsert, all over one
snapshot fetched up front. -/
def ingestionRun (today retentionDays : Int) (apiProducts : List ApiProduct)
    (apiPromotions : List ApiPromotion) (db : DB) : DB :=
  savePromotions apiPromotions apiProducts
    (saveProducts today apiProducts
      (handleStaleData today retentionDays apiProducts apiPromotions db))

/-- Today price row observed for the first time with a zero basic price:
its BASIC value is non-null yet falsy in JavaScript. -/
def pZero : Price :=
  { priceId := 1, productId := "Z", date := 0, basicPrice := some 0
    quantityPrice := none, isPromoActive := none, otherAttrs := "" }

/-- Today price row for product A with basic price 5, first observation. -/
def pFive : Price :=
  { priceId := 2, productId := "A", date := 0, basicPrice := some 5
    quantityPrice := none, isPromoActive := none, otherAttrs := "" }

/-- Yesterday price row for product A with basic price 10. -/
def pTenYesterday : Price :=
  { priceId := 3, productId := "A", date := -1, basicPrice := some 10
    quantityPrice := none, isPromoActive := none, otherAttrs := "" }

/-- Existing BASIC change record for product A. -/
def pcExistingA : PriceChange :=
  { productId := "A", priceChange := 0, priceChangePercentage := 0
    involvesPromotion := false, oldPrice := 10, newprice := 10
    priceChangeType := PriceChangeType.BASIC }

/-- Yesterday price row for product A whose basicPrice column is SQL
NULL: read back through optional chaining it yields null, not undefined. -/
def pNullYesterday : Price :=
  { priceId := 4, productId := "A", date := -1, basicPrice := none
    quantityPrice := none, isPromoActive := none, otherAttrs := "" }

/-- HTTP 503 failure, a retryable status. -/
def e503 : ReqError := { response := some 503, code := none }

/-- HTTP 404 failure, not a retryable status. -/
def e404 : ReqError := { response := some 404, code := none }

/-- Zero jitter stream. -/
def jZero : Nat → ℚ := fun _ => 0

/-- Constant one-half jitter stream, inside the 0 to 1000 jitter range. -/
def jHalf : Nat → ℚ := fun _ => 1 / 2

/-- Random stream for the proxy pool: the first draw selects index 0, every
later draw selects index 1 of a two-element pool. -/
def rSample : Nat → ℚ := fun n => if n = 0 then 0 else 1 / 2

/-- One incoming product used by the ingestion scenarios. -/
def sampleApiProduct : ApiProduct :=
  { productId := "p1", technicalArticleNumber := "tan1", attrs := "a"
    priceBasicPrice := some 5, priceQuantityPrice := none }

/-- Empty relational store. -/
def emptyDB : DB :=
  { products := [], prices := [], nextPriceId := 0, promotions := []
    promotionProducts := [], benefits := [], texts := [] }

/-- Store already holding the sample product and its price row for day 0,
the state left by a first ingestion of the sample snapshot. -/
def dbWithTodayPrice : DB :=
  { products := [productRowOf sampleApiProduct]
    prices := [priceRowOf 0 0 sampleApiProduct]
    nextPriceId := 1, promotions := [], promotionProducts := []
    benefits := [], texts := [] }

/-- Stale product stored under key q1, absent from the sample snapshot. -/
def staleProductRow : ProductRow :=
  { productId := "q1", technicalArticleNumber := "tan9", attrs := "b" }

/-- Stale promotion stored under key w1, absent from the sample snapshot. -/
def stalePromotionRow : ApiPromotion :=
  { promotionId := "w1", attrs := "c", linkedTechnicalArticleNumber := none
    benefit := none, text := none }

/-- Price row of the sample product dated 120 days before day 0, strictly
older than the default retention cutoff. -/
def oldPriceRow : PriceRow :=
  { priceId := 0, productId := "p1", date := -120, basicPrice := some 4
    quantityPrice := none }

/-- Price row of the sample product dated exactly at the retention cutoff
(90 days before day 0). -/
def boundaryPriceRow : PriceRow :=
  { priceId := 1, productId := "p1", date := -90, basicPrice := some 4
    quantityPrice := none }

/-- Store used by the stale-removal scenario: the sample product next to a
stale product and a stale promotion, one over-age price row and one price
row exactly at the retention boundary. -/
def dbStale : DB :=
  { products := [productRowOf sampleApiProduct, staleProductRow]
    prices := [oldPriceRow, boundaryPriceRow]
    nextPriceId := 2
    promotions := [stalePromotionRow]
    promotionProducts := [{ promotionId := "w1", productId := "q1" }]
    benefits := [{ promotionId := "w1", attrs := "b1" }]
    texts := [{ promotionId := "w1", attrs := "t1" }] }

/-- Per-tier block of the main loop of getPriceChange, written through
tierValue and baselineValue: run processSinglePriceType when the tier
value is truthy, with the tier's baseline as old price. rowChanges is
definitionally the BASIC block followed by the QUANTITY block. -/
def tierPart (em : String → Option Price)
    (ex : String → PriceChangeType → Option PriceChange)
    (lp : Price) (t : PriceChangeType) : List (Bool × PriceChange) :=
  if jsTruthyNum (tierValue lp t) then
    (processSinglePriceType em ex lp t ((tierValue lp t).getD 0)
      (baselineValue em lp.productId t)).toList
  else []

/-! Helper lemmas about the price-change engine. -/

theorem processSinglePriceType_eq (em : String → Option Price)
    (ex : String → PriceChangeType → Option PriceChange)
    (lp : Price) (t : PriceChangeType) (v : ℚ) (old : JsNum) :
    processSinglePriceType em ex lp t v old =
      if emitB (em lp.productId) (ex lp.productId t) old v then
        some ((ex lp.productId t).isSome,
          specRecord lp.productId t (jsTruthyStr lp.isPromoActive) old v)
      else none := by
  cases old with
  | undef =>
    simp [processSinglePriceType, emitB, specRecord, specChange, specPercentage, jsNullishQ]
  | null =>
    simp [processSinglePriceType, emitB, specRecord, specChange, specPercentage, jsNullishQ]
  | num o =>
    by_cases hvo : v = o
    · subst hvo
      simp [processSinglePriceType, emitB, specRecord, specChange, specPercentage,
        jsNullishQ, zero_div]
    · simp [processSinglePriceType, emitB, specRecord, specChange, specPercentage,
        jsNullishQ, hvo]

theorem rowChanges_eq_tierParts (em : String → Option Price)
    (ex : String → PriceChangeType → Option PriceChange) (lp : Price) :
    rowChanges em ex lp =
      tierPart em ex lp PriceChangeType.BASIC ++ tierPart em ex lp PriceChangeType.QUANTITY := rfl

theorem mem_tierPart_iff (em : String → Option Price)
    (ex : String → PriceChangeType → Option PriceChange)
    (lp : Price) (t : PriceChangeType) (x : Bool × PriceChange) :
    x ∈ tierPart em ex lp t ↔
      ∃ v : ℚ, tierValue lp t = some v ∧ v ≠ 0 ∧
        emitConditionB em ex lp.productId t v = true ∧
        x = ((ex lp.productId t).isSome,
          specRecord lp.productId t (jsTruthyStr lp.isPromoActive)
            (baselineValue em lp.productId t) v) := by
  unfold tierPart emitConditionB
  cases hv : tierValue lp t with
  | none => simp [jsTruthyNum, hv]
  | some v =>
    by_cases hnz : v = 0
    · subst hnz
      simp [jsTruthyNum, hv]
    · rw [processSinglePriceType_eq]
      cases hemit : emitB (em lp.productId) (ex lp.productId t)
          (baselineValue em lp.productId t) v with
      | false => simp [jsTruthyNum, hv, hnz, hemit]
      | true => simp [jsTruthyNum, hv, hnz, hemit]

theorem mem_allChanges_iff (earlierList laterList : List Price)
    (priceChanges : List PriceChange) (x : Bool × PriceChange) :
    x ∈ allChanges earlierList laterList priceChanges ↔
      ∃ lp ∈ laterList,
        x ∈ rowChanges (earlierMapOf earlierList) (existingMapOf priceChanges) lp := by
  simp [allChanges, List.mem_flatMap]

theorem mem_updated_iff (earlierList laterList : List Price)
    (priceChanges : List PriceChange) (rec : PriceChange) :
    rec ∈ (getPriceChange earlierList laterList priceChanges).1 ↔
      (true, rec) ∈ allChanges earlierList laterList priceChanges := by
  simp only [getPriceChange, List.mem_map, List.mem_filter]
  constructor
  · rintro ⟨⟨b, r⟩, ⟨hmem, hb⟩, hr⟩
    simp only at hb hr
    subst hb
    subst hr
    exact hmem
  · intro h
    exact ⟨(true, rec), ⟨h, rfl⟩, rfl⟩

theorem mem_new_iff (earlierList laterList : List Price)
    (priceChanges : List PriceChange) (rec : PriceChange) :
    rec ∈ (getPriceChange earlierList laterList priceChanges).2 ↔
      (false, rec) ∈ allChanges earlierList laterList priceChanges := by
  simp only [getPriceChange, List.mem_map, List.mem_filter]
  constructor
  · rintro ⟨⟨b, r⟩, ⟨hmem, hb⟩, hr⟩
    simp only [Bool.not_eq_true'] at hb
    simp only at hr
    subst hb
    subst hr
    exact hmem
  · intro h
    exact ⟨(false, rec), ⟨h, by simp⟩, rfl⟩

theorem emitted_cond (earlierList laterList : List Price) (priceChanges : List PriceChange)
    (b : Bool) (rec : PriceChange)
    (h : (b, rec) ∈ allChanges earlierList laterList priceChanges) :
    emitConditionB (earlierMapOf earlierList) (existingMapOf priceChanges)
      rec.productId rec.priceChangeType rec.newprice = true ∧
    b = (existingMapOf priceChanges rec.productId rec.priceChangeType).isSome := by
  rcases (mem_allChanges_iff _ _ _ _).1 h with ⟨lp, hlp, hrow⟩
  rw [rowChanges_eq_tierParts] at hrow
  rcases List.mem_append.1 hrow with hpart | hpart <;>
  · rcases (mem_tierPart_iff _ _ _ _ _).1 hpart with ⟨v, hval, hnz, hcond, heq⟩
    rw [Prod.mk.injEq] at heq
    rcases heq with ⟨hb, hrec⟩
    subst hrec
    exact ⟨hcond, hb⟩

/-- C1 (amended: the tier value must additionally be non-zero, since the
code tests JavaScript truthiness rather than non-nullness; and a
yesterday row whose baseline column is SQL NULL counts as a defined,
differing baseline, since null !== undefined in the code's change test):
for every row of todayPrices whose tier value is non-null and non-zero,
getPriceChange emits the change record - priceChange equal to new minus
old for a differing numeric baseline, to the whole new value for a null
baseline (new minus (null ?? 0)), and 0 in the first-observation case;
priceChangePercentage equal to priceChange divided by old when the
baseline is a positive number and 0 otherwise; oldPrice equal to the
numeric baseline when present and to today's value otherwise; the
QUANTITY baseline falling back to yesterday's basic price when the
quantity column is null or the row absent - if and only if either the
baseline is null or a number differing from today's value, or no
yesterday row or no existing change record exists for the product and
tier. -/
theorem c1_theorem (earlierList laterList : List Price) (priceChanges : List PriceChange)
    (lp : Price) (t : PriceChangeType) (v : ℚ)
    (hmem : lp ∈ laterList) (hval : tierValue lp t = some v) (hnz : v ≠ 0) :
    (specRecord lp.productId t (jsTruthyStr lp.isPromoActive)
        (baselineValue (earlierMapOf earlierList) lp.productId t) v
      ∈ (getPriceChange earlierList laterList priceChanges).1
        ++ (getPriceChange earlierList laterList priceChanges).2) ↔
    emitConditionB (earlierMapOf earlierList) (existingMapOf priceChanges)
      lp.productId t v = true := by
  constructor
  · intro hin
    rcases List.mem_append.1 hin with hin | hin
    · rcases emitted_cond _ _ _ _ _ ((mem_updated_iff _ _ _ _).1 hin) with ⟨hcond, _⟩
      simpa [specRecord] using hcond
    · rcases emitted_cond _ _ _ _ _ ((mem_new_iff _ _ _ _).1 hin) with ⟨hcond, _⟩
      simpa [specRecord] using hcond
  · intro hcond
    have hx : ((existingMapOf priceChanges lp.productId t).isSome,
        specRecord lp.productId t (jsTruthyStr lp.isPromoActive)
          (baselineValue (earlierMapOf earlierList) lp.productId t) v)
        ∈ rowChanges (earlierMapOf earlierList) (existingMapOf priceChanges) lp := by
      rw [rowChanges_eq_tierParts]
      cases t with
      | BASIC =>
        exact List.mem_append_left _
          ((mem_tierPart_iff _ _ _ _ _).2 ⟨v, hval, hnz, hcond, rfl⟩)
      | QUANTITY =>
        exact List.mem_append_right _
          ((mem_tierPart_iff _ _ _ _ _).2 ⟨v, hval, hnz, hcond, rfl⟩)
    have hall := (mem_allChanges_iff earlierList laterList priceChanges _).2 ⟨lp, hmem, hx⟩
    cases hb : (existingMapOf priceChanges lp.productId t).isSome with
    | true =>
      refine List.mem_append.2 (Or.inl ?_)
      rw [mem_updated_iff]
      rw [hb] at hall
      exact hall
    | false =>
      refine List.mem_append.2 (Or.inr ?_)
      rw [mem_new_iff]
      rw [hb] at hall
      exact hall

/-- C1 counterexample: the today row pZero carries the non-null BASIC
value 0 and has no yesterday row and no existing change record, so the
claim as stated requires a baseline change record for it; the code skips
the row entirely because 0 is falsy in JavaScript, emitting nothing. -/
theorem c1_counterexample :
    pZero.basicPrice = some 0 ∧
    earlierMapOf [] pZero.productId = none ∧
    getPriceChange [] [pZero] [] = ([], []) := by
  exact ⟨rfl, rfl, rfl⟩

/-- C1 witness: product A first observed today with basic price 5 yields
its baseline BASIC record among the outputs; and with a yesterday row
whose basicPrice column is NULL next to an existing change record, the
null baseline still emits a record whose priceChange is the whole new
price. -/
theorem c1_witness :
    (specRecord pFive.productId PriceChangeType.BASIC (jsTruthyStr pFive.isPromoActive)
        (baselineValue (earlierMapOf []) pFive.productId PriceChangeType.BASIC) 5
      ∈ (getPriceChange [] [pFive] []).1 ++ (getPriceChange [] [pFive] []).2)
  ∧ (specRecord pFive.productId PriceChangeType.BASIC (jsTruthyStr pFive.isPromoActive)
        (baselineValue (earlierMapOf [pNullYesterday]) pFive.productId PriceChangeType.BASIC) 5
      ∈ (getPriceChange [pNullYesterday] [pFive] [pcExistingA]).1
        ++ (getPriceChange [pNullYesterday] [pFive] [pcExistingA]).2) :=
  ⟨(c1_theorem [] [pFive] [] pFive PriceChangeType.BASIC 5 (by simp) rfl (by norm_num)).mpr
      (by decide),
   (c1_theorem [pNullYesterday] [pFive] [pcExistingA] pFive PriceChangeType.BASIC 5
      (by simp) rfl (by norm_num)).mpr (by decide)⟩

theorem jsMapLookup_isSome_iff [DecidableEq β] (key : α → β) (xs : List α) (k : β) :
    (jsMapLookup key xs k).isSome = true ↔ ∃ x ∈ xs, key x = k := by
  suffices h : ∀ acc : Option α,
      ((xs.foldl (fun acc x => if key x = k then some x else acc) acc).isSome = true ↔
        acc.isSome = true ∨ ∃ x ∈ xs, key x = k) by
    simpa [jsMapLookup] using h none
  induction xs with
  | nil => intro acc; simp
  | cons y ys ih =>
    intro acc
    simp only [List.foldl_cons]
    by_cases hy : key y = k
    · rw [if_pos hy, ih]
      simp [hy]
    · rw [if_neg hy, ih]
      simp only [List.mem_cons]
      constructor
      · rintro (h | ⟨x, hx, hk⟩)
        · exact Or.inl h
        · exact Or.inr ⟨x, Or.inr hx, hk⟩
      · rintro (h | ⟨x, (rfl | hx), hk⟩)
        · exact Or.inl h
        · exact absurd hk hy
        · exact Or.inr ⟨x, hx, hk⟩

theorem existingMapOf_isSome_iff (priceChanges : List PriceChange) (pid : String)
    (t : PriceChangeType) :
    (existingMapOf priceChanges pid t).isSome = true ↔
      ∃ pc ∈ priceChanges, pc.productId = pid ∧ pc.priceChangeType = t := by
  unfold existingMapOf
  rw [jsMapLookup_isSome_iff]
  simp [Prod.ext_iff]

/-- C8 (confirmed): every record emitted by getPriceChange is in the
updated list if and only if a change record with the same productId and
priceChangeType is present in the existingChanges input (it is in the new
list otherwise), and a product observed for the first time, with no
yesterday row and no existing change record, contributes its record to
the new list. -/
theorem c8_theorem (earlierList laterList : List Price) (priceChanges : List PriceChange) :
    (∀ rec : PriceChange,
      (rec ∈ (getPriceChange earlierList laterList priceChanges).1 ∨
        rec ∈ (getPriceChange earlierList laterList priceChanges).2) →
      (rec ∈ (getPriceChange earlierList laterList priceChanges).1 ↔
        ∃ pc ∈ priceChanges, pc.productId = rec.productId ∧
          pc.priceChangeType = rec.priceChangeType))
  ∧ (∀ lp ∈ laterList, ∀ t : PriceChangeType, ∀ v : ℚ,
      tierValue lp t = some v → v ≠ 0 →
      earlierMapOf earlierList lp.productId = none →
      (¬ ∃ pc ∈ priceChanges, pc.productId = lp.productId ∧ pc.priceChangeType = t) →
      specRecord lp.productId t (jsTruthyStr lp.isPromoActive)
          (baselineValue (earlierMapOf earlierList) lp.productId t) v
        ∈ (getPriceChange earlierList laterList priceChanges).2) := by
  constructor
  · intro rec hor
    constructor
    · intro hupd
      rcases emitted_cond _ _ _ _ _ ((mem_updated_iff _ _ _ _).1 hupd) with ⟨_, hb⟩
      exact (existingMapOf_isSome_iff _ _ _).1 hb.symm
    · intro hex
      have hsome : (existingMapOf priceChanges rec.productId rec.priceChangeType).isSome = true :=
        (existingMapOf_isSome_iff _ _ _).2 hex
      rcases hor with hupd | hnew
      · exact hupd
      · rcases emitted_cond _ _ _ _ _ ((mem_new_iff _ _ _ _).1 hnew) with ⟨_, hb⟩
        rw [← hb] at hsome
        exact absurd hsome (by simp)
  · intro lp hmem t v hval hnz hnone hnoex
    have hb : (existingMapOf priceChanges lp.productId t).isSome = false := by
      have : ¬ (existingMapOf priceChanges lp.productId t).isSome = true := by
        rw [existingMapOf_isSome_iff]
        exact hnoex
      exact Bool.eq_false_iff.mpr this
    have hcond : emitConditionB (earlierMapOf earlierList) (existingMapOf priceChanges)
        lp.productId t v = true := by
      simp [emitConditionB, emitB, hnone]
    have hx : ((existingMapOf priceChanges lp.productId t).isSome,
        specRecord lp.productId t (jsTruthyStr lp.isPromoActive)
          (baselineValue (earlierMapOf earlierList) lp.productId t) v)
        ∈ rowChanges (earlierMapOf earlierList) (existingMapOf priceChanges) lp := by
      rw [rowChanges_eq_tierParts]
      cases t with
      | BASIC =>
        exact List.mem_append_left _
          ((mem_tierPart_iff _ _ _ _ _).2 ⟨v, hval, hnz, hcond, rfl⟩)
      | QUANTITY =>
        exact List.mem_append_right _
          ((mem_tierPart_iff _ _ _ _ _).2 ⟨v, hval, hnz, hcond, rfl⟩)
    have hall := (mem_allChanges_iff earlierList laterList priceChanges _).2 ⟨lp, hmem, hx⟩
    rw [hb] at hall
    exact (mem_new_iff _ _ _ _).2 hall

/-- C8 witness: product A first observed today with basic price 5 and no
existing change records contributes its BASIC record to the new list. -/
theorem c8_witness :
    specRecord pFive.productId PriceChangeType.BASIC (jsTruthyStr pFive.isPromoActive)
        (baselineValue (earlierMapOf []) pFive.productId PriceChangeType.BASIC) 5
      ∈ (getPriceChange [] [pFive] []).2 :=
  (c8_theorem [] [pFive] []).2 pFive (by simp) PriceChangeType.BASIC 5 rfl (by norm_num)
    rfl (by simp)

theorem tierPart_cases (em : String → Option Price)
    (ex : String → PriceChangeType → Option PriceChange)
    (lp : Price) (t : PriceChangeType) :
    tierPart em ex lp t = [] ∨
    ∃ x : Bool × PriceChange, tierPart em ex lp t = [x] ∧
      x.2.productId = lp.productId ∧ x.2.priceChangeType = t := by
  unfold tierPart
  by_cases h1 : jsTruthyNum (tierValue lp t) = true
  · rw [if_pos h1, processSinglePriceType_eq]
    by_cases h2 : emitB (em lp.productId) (ex lp.productId t)
        (baselineValue em lp.productId t) ((tierValue lp t).getD 0) = true
    · rw [if_pos h2]
      exact Or.inr ⟨_, rfl, rfl, rfl⟩
    · rw [if_neg h2]
      exact Or.inl rfl
  · rw [if_neg h1]
    exact Or.inl rfl

theorem rowChanges_pid (em : String → Option Price)
    (ex : String → PriceChangeType → Option PriceChange)
    (lp : Price) (x : Bool × PriceChange)
    (h : x ∈ rowChanges em ex lp) : x.2.productId = lp.productId := by
  rw [rowChanges_eq_tierParts] at h
  rcases List.mem_append.1 h with h | h <;>
  · rcases (mem_tierPart_iff _ _ _ _ _).1 h with ⟨v, _, _, _, rfl⟩
    rfl

theorem rowChanges_keys_nodup (em : String → Option Price)
    (ex : String → PriceChangeType → Option PriceChange) (lp : Price) :
    ((rowChanges em ex lp).map
      (fun x => (x.2.productId, x.2.priceChangeType))).Nodup := by
  rw [rowChanges_eq_tierParts]
  rcases tierPart_cases em ex lp PriceChangeType.BASIC with hB | ⟨xB, hB, hBpid, hBt⟩ <;>
    rcases tierPart_cases em ex lp PriceChangeType.QUANTITY with hQ | ⟨xQ, hQ, hQpid, hQt⟩
  · simp [hB, hQ]
  · simp [hB, hQ]
  · simp [hB, hQ]
  · simp [hB, hQ, hBpid, hBt, hQpid, hQt]

theorem allChanges_keys_nodup (earlierList laterList : List Price)
    (priceChanges : List PriceChange)
    (h : (laterList.map Price.productId).Nodup) :
    ((allChanges earlierList laterList priceChanges).map
      (fun x => (x.2.productId, x.2.priceChangeType))).Nodup := by
  unfold allChanges
  induction laterList with
  | nil => simp
  | cons lp rest ih =>
    rw [List.map_cons, List.nodup_cons] at h
    obtain ⟨hnot, hrest⟩ := h
    rw [List.flatMap_cons, List.map_append]
    refine List.Nodup.append (rowChanges_keys_nodup _ _ _) (ih hrest) ?_
    intro a ha hb
    rcases List.mem_map.1 ha with ⟨x, hx, rfl⟩
    rcases List.mem_map.1 hb with ⟨y, hy, hkey⟩
    rcases List.mem_flatMap.1 hy with ⟨lp2, hlp2, hy2⟩
    have h1 := rowChanges_pid _ _ _ x hx
    have h2 := rowChanges_pid _ _ _ y hy2
    have hpid : lp.productId = lp2.productId := by
      have := congrArg Prod.fst hkey
      simp only at this
      rw [← h1, ← h2]
      exact this.symm
    exact hnot (List.mem_map.2 ⟨lp2, hlp2, hpid.symm⟩)

theorem nodup_map_filter_append (g : α → β) (p : α → Bool) (l : List α)
    (h : (l.map g).Nodup) :
    ((l.filter p).map g ++ (l.filter (fun x => !p x)).map g).Nodup := by
  refine List.Nodup.append ?_ ?_ ?_
  · exact List.Nodup.sublist ((List.filter_sublist l).map g) h
  · exact List.Nodup.sublist ((List.filter_sublist l).map g) h
  · intro a ha hb
    rcases List.mem_map.1 ha with ⟨x, hx, rfl⟩
    rcases List.mem_map.1 hb with ⟨y, hy, hkey⟩
    rcases List.mem_filter.1 hx with ⟨hxl, hxp⟩
    rcases List.mem_filter.1 hy with ⟨hyl, hyp⟩
    have hxy : y = x := List.inj_on_of_nodup_map h hyl hxl hkey
    rw [hxy] at hyp
    rw [hxp] at hyp
    simp at hyp

/-- C10 (confirmed): when todayPrices holds at most one row per productId,
the concatenation of the updated and new outputs of getPriceChange holds
at most one record per productId and priceChangeType pair, and the
productId of every output record is the productId of some row of
todayPrices. -/
theorem c10_theorem (earlierList laterList : List Price) (priceChanges : List PriceChange)
    (hnodup : (laterList.map Price.productId).Nodup) :
    ((((getPriceChange earlierList laterList priceChanges).1
        ++ (getPriceChange earlierList laterList priceChanges).2).map
          (fun rec => (rec.productId, rec.priceChangeType))).Nodup)
  ∧ (∀ rec : PriceChange,
      (rec ∈ (getPriceChange earlierList laterList priceChanges).1 ∨
        rec ∈ (getPriceChange earlierList laterList priceChanges).2) →
      rec.productId ∈ laterList.map Price.productId) := by
  constructor
  · have hall := allChanges_keys_nodup earlierList laterList priceChanges hnodup
    have hres := nodup_map_filter_append
      (fun x : Bool × PriceChange => (x.2.productId, x.2.priceChangeType))
      (fun x => x.1) (allChanges earlierList laterList priceChanges) hall
    simpa [getPriceChange, List.map_map, Function.comp] using hres
  · intro rec hor
    have hmem : ∃ b : Bool, (b, rec) ∈ allChanges earlierList laterList priceChanges := by
      rcases hor with hupd | hnew
      · exact ⟨true, (mem_updated_iff _ _ _ _).1 hupd⟩
      · exact ⟨false, (mem_new_iff _ _ _ _).1 hnew⟩
    rcases hmem with ⟨b, hb⟩
    rcases (mem_allChanges_iff _ _ _ _).1 hb with ⟨lp, hlp, hrow⟩
    have := rowChanges_pid _ _ _ _ hrow
    simp only at this
    rw [List.mem_map]
    exact ⟨lp, hlp, this.symm⟩

/-- C10 witness: two distinct products observed today produce outputs with
pairwise distinct productId and tier keys, all drawn from today's ids. -/
theorem c10_witness :
    ((((getPriceChange [] [pFive, pZero] []).1
        ++ (getPriceChange [] [pFive, pZero] []).2).map
          (fun rec => (rec.productId, rec.priceChangeType))).Nodup)
  ∧ (∀ rec : PriceChange,
      (rec ∈ (getPriceChange [] [pFive, pZero] []).1 ∨
        rec ∈ (getPriceChange [] [pFive, pZero] []).2) →
      rec.productId ∈ [pFive, pZero].map Price.productId) :=
  c10_theorem [] [pFive, pZero] [] (by decide)

/-! Helper lemmas about the retry loop of proxiedRequest. -/

theorem runRequest_success_of_retryable (mt : Nat) (j : Nat → ℚ) :
    ∀ (fs : List ReqError) (a v : Nat) (rest : List Outcome),
      (∀ e ∈ fs, isRetryable e = true) → a + fs.length < mt →
      runRequest mt j a (fs.map Outcome.failure ++ (Outcome.success v :: rest)) =
        some (ReqResult.ok v,
          (List.range fs.length).map (fun i => delayTime (a + 1 + i) (j (a + 1 + i)))) := by
  intro fs
  induction fs with
  | nil =>
    intro a v rest hret hlen
    simp [runRequest]
  | cons e fs ih =>
    intro a v rest hret hlen
    have hretE : isRetryable e = true := hret e (List.mem_cons_self e fs)
    have hlt : ¬ a + 1 ≥ mt := by
      simp only [List.length_cons] at hlen
      omega
    simp only [List.map_cons, List.cons_append, runRequest, if_neg hlt, if_pos hretE,
      List.append_eq]
    rw [ih (a + 1) v rest (fun e2 h2 => hret e2 (List.mem_cons_of_mem e h2))
      (by simp only [List.length_cons] at hlen; omega)]
    simp only [Option.map_some', List.length_cons, List.range_succ_eq_map, List.map_cons,
      List.map_map]
    have harith : ∀ i : Nat, a + 1 + 1 + i = a + 1 + (i + 1) := by omega
    simp [Function.comp, Nat.succ_eq_add_one, harith]

theorem runRequest_exhaust (mt : Nat) (j : Nat → ℚ) :
    ∀ (fs : List ReqError) (a : Nat) (e : ReqError) (rest : List Outcome),
      (∀ e2 ∈ fs, isRetryable e2 = true) → a + fs.length + 1 = mt →
      runRequest mt j a (fs.map Outcome.failure ++ (Outcome.failure e :: rest)) =
        some (ReqResult.thrown e,
          (List.range fs.length).map (fun i => delayTime (a + 1 + i) (j (a + 1 + i)))) := by
  intro fs
  induction fs with
  | nil =>
    intro a e rest _ hlen
    have : a + 1 ≥ mt := by simp only [List.length_nil] at hlen; omega
    simp [runRequest, this]
  | cons e2 fs ih =>
    intro a e rest hret hlen
    have hretE : isRetryable e2 = true := hret e2 (List.mem_cons_self e2 fs)
    have hlt : ¬ a + 1 ≥ mt := by
      simp only [List.length_cons] at hlen
      omega
    simp only [List.map_cons, List.cons_append, runRequest, if_neg hlt, if_pos hretE,
      List.append_eq]
    rw [ih (a + 1) e rest (fun e3 h3 => hret e3 (List.mem_cons_of_mem e2 h3))
      (by simp only [List.length_cons] at hlen; omega)]
    simp only [Option.map_some', List.length_cons, List.range_succ_eq_map, List.map_cons,
      List.map_map]
    have harith : ∀ i : Nat, a + 1 + 1 + i = a + 1 + (i + 1) := by omega
    simp [Function.comp, Nat.succ_eq_add_one, harith]

/-- C4 (confirmed): a failed attempt is retried exactly when the HTTP
status is one of 408, 500, 502, 503 and 504 or the transport reports a
timeout (ECONNABORTED); any other failure propagates immediately,
independently of the remaining trace; and when the attempt budget
(default 10) is exhausted by failures, the last error, with its HTTP
status or transport code, is thrown. -/
theorem c4_theorem :
    maxTries = 10
  ∧ (∀ e : ReqError, isRetryable e = true ↔
      ((∃ s ∈ retryableStatusCodes, e.response = some s) ∨ e.code = some "ECONNABORTED"))
  ∧ (∀ (j : Nat → ℚ) (a : Nat) (e : ReqError) (rest : List Outcome),
      a + 1 < maxTries → isRetryable e = false →
      runRequest maxTries j a (Outcome.failure e :: rest) = some (ReqResult.thrown e, []))
  ∧ (∀ (j : Nat → ℚ) (fs : List ReqError) (v : Nat) (rest : List Outcome),
      (∀ e ∈ fs, isRetryable e = true) → fs.length < maxTries →
      runRequest maxTries j 0 (fs.map Outcome.failure ++ (Outcome.success v :: rest)) =
        some (ReqResult.ok v, backoffDelays j fs.length))
  ∧ (∀ (j : Nat → ℚ) (fs : List ReqError) (e : ReqError) (rest : List Outcome),
      (∀ e2 ∈ fs, isRetryable e2 = true) → fs.length + 1 = maxTries →
      runRequest maxTries j 0 (fs.map Outcome.failure ++ (Outcome.failure e :: rest)) =
        some (ReqResult.thrown e, backoffDelays j fs.length)) := by
  refine ⟨rfl, ?_, ?_, ?_, ?_⟩
  · intro e
    cases e with
    | mk resp code =>
      cases resp with
      | none => simp [isRetryable]
      | some s =>
        simp only [isRetryable, Bool.or_eq_true, decide_eq_true_eq]
        constructor
        · rintro (hc | hc)
          · exact Or.inl ⟨s, List.elem_iff.1 hc, rfl⟩
          · exact Or.inr hc
        · rintro (⟨s2, hs2, heq⟩ | hc)
          · have hss : s = s2 := Option.some.inj heq
            subst hss
            exact Or.inl (List.elem_iff.2 hs2)
          · exact Or.inr hc
  · intro j a e rest hlt hret
    have h1 : ¬ a + 1 ≥ maxTries := by omega
    simp only [runRequest]
    rw [if_neg h1, hret]
    simp
  · intro j fs v rest hret hlen
    rw [runRequest_success_of_retryable maxTries j fs 0 v rest hret (by omega)]
    simp [backoffDelays, Nat.add_comm]
  · intro j fs e rest hret hlen
    rw [runRequest_exhaust maxTries j fs 0 e rest hret (by omega)]
    simp [backoffDelays, Nat.add_comm]

/-- C4 witness: a 404 propagates immediately, two 503 failures followed by
a success return the response after two backoffs, and nine retryable
failures followed by a tenth failure exhaust the budget and throw the
last error. -/
theorem c4_witness :
    runRequest maxTries jZero 0 [Outcome.failure e404] = some (ReqResult.thrown e404, [])
  ∧ runRequest maxTries jZero 0
      ([e503, e503].map Outcome.failure ++ (Outcome.success 7 :: [])) =
      some (ReqResult.ok 7, backoffDelays jZero 2)
  ∧ runRequest maxTries jZero 0
      ((List.replicate 9 e503).map Outcome.failure ++ (Outcome.failure e404 :: [])) =
      some (ReqResult.thrown e404, backoffDelays jZero 9) :=
  ⟨c4_theorem.2.2.1 jZero 0 e404 [] (by norm_num [maxTries]) (by decide),
   c4_theorem.2.2.2.1 jZero [e503, e503] 7 [] (by decide) (by decide),
   c4_theorem.2.2.2.2 jZero (List.replicate 9 e503) e404 [] (by decide) (by decide)⟩

theorem runRequest_delays_shape (mt : Nat) (j : Nat → ℚ) :
    ∀ (t : List Outcome) (a : Nat) (r : ReqResult) (ds : List ℚ),
      runRequest mt j a t = some (r, ds) →
      ds = (List.range ds.length).map (fun i => delayTime (a + 1 + i) (j (a + 1 + i))) := by
  intro t
  induction t with
  | nil =>
    intro a r ds h
    simp [runRequest] at h
  | cons o rest ih =>
    intro a r ds h
    cases o with
    | success v =>
      simp only [runRequest, Option.some.injEq, Prod.mk.injEq] at h
      rw [← h.2]
      simp
    | failure e =>
      simp only [runRequest] at h
      by_cases h1 : a + 1 ≥ mt
      · rw [if_pos h1] at h
        simp only [Option.some.injEq, Prod.mk.injEq] at h
        rw [← h.2]
        simp
      · rw [if_neg h1] at h
        by_cases h2 : isRetryable e = true
        · rw [if_pos h2] at h
          cases hrec : runRequest mt j (a + 1) rest with
          | none =>
            rw [hrec] at h
            simp at h
          | some rd =>
            rw [hrec] at h
            simp only [Option.map_some', Option.some.injEq, Prod.mk.injEq] at h
            have hrd := ih (a + 1) rd.1 rd.2 (by rw [hrec])
            rw [← h.2]
            have hlen : (delayTime (a + 1) (j (a + 1)) :: rd.2).length = rd.2.length + 1 := rfl
            rw [hlen, List.range_succ_eq_map, List.map_cons, List.map_map]
            have harith : ∀ i : Nat, a + 1 + (i + 1) = a + 1 + 1 + i := by omega
            refine List.cons_eq_cons.mpr ⟨by norm_num, ?_⟩
            conv_lhs => rw [hrd]
            congr 1
            funext i
            simp only [Function.comp_apply, Nat.succ_eq_add_one]
            rw [harith i]
        · rw [if_neg h2] at h
          simp only [Option.some.injEq, Prod.mk.injEq] at h
          rw [← h.2]
          simp

theorem delayTime_strict_mono (j : Nat → ℚ) (x y : Nat)
    (hxy : x < y) (hjx : j x < 1000) (hjy : 0 ≤ j y) :
    delayTime x (j x) < delayTime y (j y) := by
  unfold delayTime
  have h1 : (2:ℚ) ^ x * 2 ≤ 2 ^ y := by
    rw [← pow_succ]
    exact pow_le_pow_right₀ (by norm_num) (by omega)
  have h2 : (1:ℚ) ≤ 2 ^ x := one_le_pow₀ (by norm_num)
  linarith

/-- C9 (confirmed): the backoff delay recorded before the n-th retry of a
run of proxiedRequest equals 2 to the n times 1000 milliseconds plus the
n-th jitter draw, and for every jitter stream inside the interval from 0
to 1000 the recorded delays of one run are strictly increasing. -/
theorem c9_theorem (j : Nat → ℚ) (a : Nat) (t : List Outcome) (r : ReqResult)
    (ds : List ℚ)
    (hrun : runRequest maxTries j a t = some (r, ds))
    (hj : ∀ n : Nat, 0 ≤ j n ∧ j n < 1000) :
    ds = (List.range ds.length).map
      (fun i => 2 ^ (a + 1 + i) * 1000 + j (a + 1 + i))
  ∧ ds.Pairwise (· < ·) := by
  have hshape := runRequest_delays_shape maxTries j t a r ds hrun
  constructor
  · exact hshape
  · rw [hshape, List.pairwise_map]
    refine List.Pairwise.imp ?_ (List.pairwise_lt_range ds.length)
    intro x y hxy
    exact delayTime_strict_mono j (a + 1 + x) (a + 1 + y) (by omega)
      (hj (a + 1 + x)).2 (hj (a + 1 + y)).1

/-- C9 witness: a run with two 503 failures and constant jitter one half
records the delays 2001/2 and 8001/2, which satisfy the formula and are
strictly increasing. -/
theorem c9_witness :
    backoffDelays jHalf 2 = (List.range (backoffDelays jHalf 2).length).map
      (fun i => 2 ^ (0 + 1 + i) * 1000 + jHalf (0 + 1 + i))
  ∧ (backoffDelays jHalf 2).Pairwise (· < ·) :=
  c9_theorem jHalf 0
    ([e503, e503].map Outcome.failure ++ (Outcome.success 7 :: [])) (ReqResult.ok 7)
    (backoffDelays jHalf 2)
    (c4_theorem.2.2.2.1 jHalf [e503, e503] 7 [] (by decide) (by decide))
    (fun n => by norm_num [jHalf])

/-- C6 (refuting evaluation): with the pool of agents 100 and 200 and a
random stream that draws index 0 on the first attempt and index 1 on the
retry, the retry's selection is agent 200, yet the options used by the
retry still carry agent 100: the object spread writes the old options
after the fresh agent, so every retry reuses the first attempt's proxy
and proxy affinity is kept, contrary to the claim. -/
theorem c6_theorem :
    selectAgent [100, 200] (rSample 0) = some 100
  ∧ selectAgent [100, 200] (rSample 1) = some 200
  ∧ (optionsAtAttempt [100, 200] rSample 0).httpAgent = some 100
  ∧ (optionsAtAttempt [100, 200] rSample 1).httpAgent = some 100 := by
  have h0 : selectAgent [100, 200] (rSample 0) = some 100 := by
    unfold selectAgent rSample
    norm_num
  have h1 : selectAgent [100, 200] (rSample 1) = some 200 := by
    unfold selectAgent rSample
    norm_num
  refine ⟨h0, h1, ?_, ?_⟩
  · simp [optionsAtAttempt, h0, spreadHttpAgent]
  · simp [optionsAtAttempt, h0, h1, spreadHttpAgent]

/-- C5 (refuting evaluation): when the first page fulfills with items
1 and 2 and the second page rejects, the collector rejects with the
page's error instead of returning the successful page's items, because
Promise.all is awaited over the original page promises; when all pages
fulfill, the items are concatenated. -/
theorem c5_theorem :
    collectAllPages [Except.ok [1, 2], Except.error "HTTP 500"] = Except.error "HTTP 500"
  ∧ collectAllPages ([Except.ok [1, 2], Except.ok [3]] : List (Except String (List Nat)))
      = Except.ok [1, 2, 3] :=
  ⟨rfl, rfl⟩

/-! Helper lemmas about the ingestion writer. -/

theorem dedupe_fold_sub [DecidableEq β] (key : α → β) (S : List α) :
    ∀ (l acc : List α), (∀ y ∈ acc, y ∈ S) → (∀ y ∈ l, y ∈ S) →
      ∀ x ∈ l.foldl (fun acc x =>
        if acc.any (fun y => key y = key x) then
          acc.map (fun y => if key y = key x then x else y)
        else acc ++ [x]) acc, x ∈ S := by
  intro l
  induction l with
  | nil =>
    intro acc hacc _ x hx
    exact hacc x hx
  | cons z zs ih =>
    intro acc hacc hl x hx
    simp only [List.foldl_cons] at hx
    refine ih _ ?_ (fun y hy => hl y (List.mem_cons_of_mem z hy)) x hx
    intro y hy
    by_cases hc : acc.any (fun y2 => key y2 = key z) = true
    · rw [if_pos hc] at hy
      rcases List.mem_map.1 hy with ⟨w, hw, rfl⟩
      by_cases hkz : key w = key z
      · rw [if_pos hkz]
        exact hl z (List.mem_cons_self z zs)
      · rw [if_neg hkz]
        exact hacc w hw
    · rw [if_neg hc] at hy
      rcases List.mem_append.1 hy with hy | hy
      · exact hacc y hy
      · rw [List.mem_singleton] at hy
        rw [hy]
        exact hl z (List.mem_cons_self z zs)

theorem mapDedupe_sub [DecidableEq β] (key : α → β) (xs : List α) :
    ∀ x ∈ mapDedupe key xs, x ∈ xs := by
  intro x hx
  exact dedupe_fold_sub key xs xs [] (by simp) (fun y hy => hy) x hx

theorem upsertBy_sub [DecidableEq β] (key : α → β) :
    ∀ (incoming table : List α) (x : α), x ∈ upsertBy key table incoming →
      x ∈ table ∨ x ∈ incoming := by
  intro incoming
  induction incoming with
  | nil =>
    intro table x hx
    exact Or.inl hx
  | cons z zs ih =>
    intro table x hx
    have hx2 : x ∈ upsertBy key
        (if table.any (fun y => key y = key z) then
          table.map (fun y => if key y = key z then z else y)
        else table ++ [z]) zs := hx
    rcases ih _ x hx2 with h | h
    · by_cases hc : table.any (fun y => key y = key z) = true
      · rw [if_pos hc] at h
        rcases List.mem_map.1 h with ⟨w, hw, rfl⟩
        by_cases hkz : key w = key z
        · rw [if_pos hkz]
          exact Or.inr (List.mem_cons_self z zs)
        · rw [if_neg hkz]
          exact Or.inl hw
      · rw [if_neg hc] at h
        rcases List.mem_append.1 h with h | h
        · exact Or.inl h
        · rw [List.mem_singleton] at h
          rw [h]
          exact Or.inr (List.mem_cons_self z zs)
    · exact Or.inr (List.mem_cons_of_mem z h)

theorem pricesFor_mem (today : Int) :
    ∀ (ps : List ApiProduct) (nextId : Nat) (r : PriceRow), r ∈ pricesFor nextId today ps →
      nextId ≤ r.priceId ∧ r.date = today ∧
        r.productId ∈ ps.map ApiProduct.productId := by
  intro ps
  induction ps with
  | nil =>
    intro nextId r hr
    simp [pricesFor] at hr
  | cons p rest ih =>
    intro nextId r hr
    rcases List.mem_cons.1 hr with hr | hr
    · subst hr
      exact ⟨le_refl _, rfl, by simp [priceRowOf]⟩
    · rcases ih (nextId + 1) r hr with ⟨h1, h2, h3⟩
      exact ⟨by omega, h2, by simp [h3, List.mem_cons.2 (Or.inr (List.mem_map.1 h3).choose_spec.1)]⟩

theorem linksOf_mem (apiProducts : List ApiProduct) (promo : ApiPromotion)
    (r : PromotionProductRow) (h : r ∈ linksOf apiProducts promo) :
    r.promotionId = promo.promotionId ∧
      r.productId ∈ apiProducts.map ApiProduct.productId := by
  unfold linksOf at h
  split at h
  · simp at h
  · split at h
    · simp at h
    · rcases List.mem_map.1 h with ⟨pid, hpid, rfl⟩
      refine ⟨rfl, ?_⟩
      rcases List.mem_filter.1 hpid with ⟨hpid2, _⟩
      rcases List.mem_filterMap.1 hpid2 with ⟨tan, _, hmap⟩
      cases hfind : apiProducts.find? (fun p => p.technicalArticleNumber = tan) with
      | none =>
        rw [hfind] at hmap
        simp at hmap
      | some p =>
        rw [hfind] at hmap
        simp only [Option.map_some', Option.some.injEq] at hmap
        rw [← hmap]
        exact List.mem_map.2 ⟨p, List.mem_of_find?_eq_some hfind, rfl⟩

theorem benefitsOf_pid (promo : ApiPromotion) (r : BenefitRow)
    (h : r ∈ benefitsOf promo) : r.promotionId = promo.promotionId := by
  unfold benefitsOf at h
  split at h
  · simp at h
  · rcases List.mem_map.1 h with ⟨b, _, rfl⟩
    rfl

theorem textsOf_pid (promo : ApiPromotion) (r : TextRow)
    (h : r ∈ textsOf promo) : r.promotionId = promo.promotionId := by
  unfold textsOf at h
  split at h
  · simp at h
  · rcases List.mem_map.1 h with ⟨t, _, rfl⟩
    rfl

theorem stale_mem (dbIds apiIds : List String) (pid : String)
    (hdb : pid ∈ dbIds) (hnot : pid ∉ apiIds) :
    (dbIds.filter (fun p => ¬ apiIds.contains p)).contains pid = true := by
  apply List.elem_iff.2
  refine List.mem_filter.2 ⟨hdb, ?_⟩
  simp only [decide_eq_true_eq]
  intro hc
  exact hnot (List.elem_iff.1 hc)

theorem stale_not_contains (dbIds apiIds : List String) (pid : String)
    (hapi : pid ∈ apiIds) :
    (dbIds.filter (fun p => ¬ apiIds.contains p)).contains pid = false := by
  rw [Bool.eq_false_iff]
  intro hc
  rcases List.mem_filter.1 (List.elem_iff.1 hc) with ⟨_, hpred⟩
  simp only [decide_eq_true_eq] at hpred
  exact hpred (List.elem_iff.2 hapi)

/-- C3 (confirmed): after one ingestion run, every stored product whose
key is absent from the snapshot is gone together with its price and
promotion-link rows, every stored promotion absent from the snapshot is
gone together with its link, benefit and text rows, every price row
strictly older than the retention cutoff (today minus the retention
window, default 90 days) is gone, and a price row of a retained product
dated exactly at the cutoff is still stored. -/
theorem c3_theorem (today retentionDays : Int) (apiProducts : List ApiProduct)
    (apiPromotions : List ApiPromotion) (db : DB)
    (hwf : ∀ r ∈ db.prices, r.priceId < db.nextPriceId) :
    (∀ pr ∈ db.products, pr.productId ∉ apiProducts.map ApiProduct.productId →
      (∀ r ∈ (ingestionRun today retentionDays apiProducts apiPromotions db).products,
          r.productId ≠ pr.productId)
      ∧ (∀ r ∈ (ingestionRun today retentionDays apiProducts apiPromotions db).prices,
          r.productId ≠ pr.productId)
      ∧ (∀ r ∈ (ingestionRun today retentionDays apiProducts apiPromotions db).promotionProducts,
          r.productId ≠ pr.productId))
  ∧ (∀ pm ∈ db.promotions, pm.promotionId ∉ apiPromotions.map ApiPromotion.promotionId →
      (∀ r ∈ (ingestionRun today retentionDays apiProducts apiPromotions db).promotions,
          r.promotionId ≠ pm.promotionId)
      ∧ (∀ r ∈ (ingestionRun today retentionDays apiProducts apiPromotions db).promotionProducts,
          r.promotionId ≠ pm.promotionId)
      ∧ (∀ r ∈ (ingestionRun today retentionDays apiProducts apiPromotions db).benefits,
          r.promotionId ≠ pm.promotionId)
      ∧ (∀ r ∈ (ingestionRun today retentionDays apiProducts apiPromotions db).texts,
          r.promotionId ≠ pm.promotionId))
  ∧ (∀ r ∈ db.prices, r.date < today - retentionDays →
      r ∉ (ingestionRun today retentionDays apiProducts apiPromotions db).prices)
  ∧ (∀ r ∈ db.prices, r.date = today - retentionDays →
      r.productId ∈ apiProducts.map ApiProduct.productId →
      r ∈ (ingestionRun today retentionDays apiProducts apiPromotions db).prices) := by
  refine ⟨?_, ?_, ?_, ?_⟩
  · intro pr hpr hnot
    have hstale : ((db.products.map ProductRow.productId).filter
        (fun pid => ¬ (apiProducts.map ApiProduct.productId).contains pid)).contains
          pr.productId = true :=
      stale_mem _ _ _ (List.mem_map.2 ⟨pr, hpr, rfl⟩) hnot
    refine ⟨?_, ?_, ?_⟩
    · intro r hr heq
      rcases upsertBy_sub ProductRow.productId _ _ r hr with h | h
      · rcases List.mem_filter.1 h with ⟨_, hpred⟩
        simp only [decide_eq_true_eq] at hpred
        rw [heq] at hpred
        exact hpred hstale
      · rcases List.mem_map.1 h with ⟨p, hp, rfl⟩
        apply hnot
        rw [← heq]
        exact List.mem_map.2 ⟨p, mapDedupe_sub _ _ p hp, rfl⟩
    · intro r hr heq
      rcases List.mem_append.1 hr with h | h
      · rcases List.mem_filter.1 h with ⟨h1, _⟩
        rcases List.mem_filter.1 h1 with ⟨_, hpred⟩
        simp only [decide_eq_true_eq] at hpred
        rw [heq] at hpred
        exact hpred hstale
      · rcases pricesFor_mem today _ _ r h with ⟨_, _, hpid⟩
        rcases List.mem_map.1 hpid with ⟨p, hp, hpe⟩
        apply hnot
        rw [← heq, ← hpe]
        exact List.mem_map.2 ⟨p, mapDedupe_sub _ _ p hp, rfl⟩
    · intro r hr heq
      rcases List.mem_append.1 hr with h | h
      · rcases List.mem_filter.1 h with ⟨h1, _⟩
        rcases List.mem_filter.1 h1 with ⟨_, hpred⟩
        simp only [decide_eq_true_eq] at hpred
        rcases hpred with ⟨hp1, _⟩
        rw [heq] at hp1
        exact hp1 hstale
      · rcases List.mem_flatMap.1 h with ⟨promo, _, hlink⟩
        rcases linksOf_mem apiProducts promo r hlink with ⟨_, hpid⟩
        rcases List.mem_map.1 hpid with ⟨p, hpapi, hpe⟩
        apply hnot
        rw [← heq, ← hpe]
        exact List.mem_map.2 ⟨p, hpapi, rfl⟩
  · intro pm hpm hnot
    have hstale : ((db.promotions.map ApiPromotion.promotionId).filter
        (fun pid => ¬ (apiPromotions.map ApiPromotion.promotionId).contains pid)).contains
          pm.promotionId = true :=
      stale_mem _ _ _ (List.mem_map.2 ⟨pm, hpm, rfl⟩) hnot
    refine ⟨?_, ?_, ?_, ?_⟩
    · intro r hr heq
      rcases upsertBy_sub ApiPromotion.promotionId _ _ r hr with h | h
      · rcases List.mem_filter.1 h with ⟨_, hpred⟩
        simp only [decide_eq_true_eq] at hpred
        rw [heq] at hpred
        exact hpred hstale
      · apply hnot
        rw [← heq]
        exact List.mem_map.2 ⟨r, mapDedupe_sub _ _ r h, rfl⟩
    · intro r hr heq
      rcases List.mem_append.1 hr with h | h
      · rcases List.mem_filter.1 h with ⟨h1, _⟩
        rcases List.mem_filter.1 h1 with ⟨_, hpred⟩
        simp only [decide_eq_true_eq] at hpred
        rcases hpred with ⟨_, hp2⟩
        rw [heq] at hp2
        exact hp2 hstale
      · rcases List.mem_flatMap.1 h with ⟨promo, hpromo, hlink⟩
        rcases linksOf_mem apiProducts promo r hlink with ⟨hrp, _⟩
        apply hnot
        rw [← heq, hrp]
        exact List.mem_map.2 ⟨promo, mapDedupe_sub _ _ promo hpromo, rfl⟩
    · intro r hr heq
      rcases List.mem_append.1 hr with h | h
      · rcases List.mem_filter.1 h with ⟨h1, _⟩
        rcases List.mem_filter.1 h1 with ⟨_, hpred⟩
        simp only [decide_eq_true_eq] at hpred
        rw [heq] at hpred
        exact hpred hstale
      · rcases List.mem_flatMap.1 h with ⟨promo, hpromo, hben⟩
        have hrp := benefitsOf_pid promo r hben
        apply hnot
        rw [← heq, hrp]
        exact List.mem_map.2 ⟨promo, mapDedupe_sub _ _ promo hpromo, rfl⟩
    · intro r hr heq
      rcases List.mem_append.1 hr with h | h
      · rcases List.mem_filter.1 h with ⟨h1, _⟩
        rcases List.mem_filter.1 h1 with ⟨_, hpred⟩
        simp only [decide_eq_true_eq] at hpred
        rw [heq] at hpred
        exact hpred hstale
      · rcases List.mem_flatMap.1 h with ⟨promo, hpromo, htx⟩
        have hrp := textsOf_pid promo r htx
        apply hnot
        rw [← heq, hrp]
        exact List.mem_map.2 ⟨promo, mapDedupe_sub _ _ promo hpromo, rfl⟩
  · intro r hrdb hold hmem
    rcases List.mem_append.1 hmem with h | h
    · rcases List.mem_filter.1 h with ⟨_, hpred⟩
      simp only [decide_eq_true_eq] at hpred
      exact hpred hold
    · rcases pricesFor_mem today _ _ r h with ⟨hge, _, _⟩
      have hnid : (handleStaleData today retentionDays apiProducts apiPromotions db).nextPriceId
          = db.nextPriceId := rfl
      rw [hnid] at hge
      have := hwf r hrdb
      omega
  · intro r hrdb hdate hapi
    refine List.mem_append.2 (Or.inl ?_)
    refine List.mem_filter.2 ⟨List.mem_filter.2 ⟨hrdb, ?_⟩, ?_⟩
    · simp only [decide_eq_true_eq]
      intro hc
      have h2 := stale_not_contains (db.products.map ProductRow.productId)
        (apiProducts.map ApiProduct.productId) r.productId hapi
      rw [hc] at h2
      exact Bool.noConfusion h2
    · simp only [decide_eq_true_eq]
      omega

/-- C3 witness: on a store holding a stale product, a stale promotion
with dependents, one over-age price row and one boundary price row, one
run with the sample snapshot removes the old price, keeps the boundary
price, and leaves no row keyed by the stale product or promotion. -/
theorem c3_witness :
    oldPriceRow ∉ (ingestionRun 0 90 [sampleApiProduct] [] dbStale).prices
  ∧ boundaryPriceRow ∈ (ingestionRun 0 90 [sampleApiProduct] [] dbStale).prices
  ∧ (∀ r ∈ (ingestionRun 0 90 [sampleApiProduct] [] dbStale).products,
      r.productId ≠ staleProductRow.productId)
  ∧ (∀ r ∈ (ingestionRun 0 90 [sampleApiProduct] [] dbStale).promotions,
      r.promotionId ≠ stalePromotionRow.promotionId) :=
  ⟨(c3_theorem 0 90 [sampleApiProduct] [] dbStale (by decide)).2.2.1 oldPriceRow
      (by decide) (by decide),
   (c3_theorem 0 90 [sampleApiProduct] [] dbStale (by decide)).2.2.2 boundaryPriceRow
      (by decide) (by decide) (by decide),
   ((c3_theorem 0 90 [sampleApiProduct] [] dbStale (by decide)).1 staleProductRow
      (by decide) (by decide)).1,
   ((c3_theorem 0 90 [sampleApiProduct] [] dbStale (by decide)).2.1 stalePromotionRow
      (by decide) (by decide)).1⟩

/-- C2 (refuting evaluation): running the ingestion writer twice on the
same day with the identical one-product snapshot leaves one product row
but two price rows: the price insert's duplicate-ignoring flag has no
unique productId-and-date constraint to fire on (models/Price.ts declares
only the auto-increment primary key), so the second run inserts a second
price row for the same product and day and the stored row count grows. -/
theorem c2_theorem :
    (ingestionRun 0 90 [sampleApiProduct] [] emptyDB).prices.length = 1
  ∧ (ingestionRun 0 90 [sampleApiProduct] []
      (ingestionRun 0 90 [sampleApiProduct] [] emptyDB)).prices.length = 2
  ∧ (ingestionRun 0 90 [sampleApiProduct] []
      (ingestionRun 0 90 [sampleApiProduct] [] emptyDB)).products.length = 1 := by
  refine ⟨rfl, rfl, rfl⟩

/-- C7 (refuting evaluation): the dedup and upsert steps behave as
claimed (last occurrence of a duplicated productId wins and overwrites
the stored attributes), but when a price row for the sample product and
day 0 is already stored, saveProducts inserts a second price row for the
same product and day instead of skipping it: the price table has no
one-price-per-product-per-day uniqueness constraint for the insert's
duplicate-ignoring flag to act on. -/
theorem c7_theorem :
    mapDedupe ApiProduct.productId
      [sampleApiProduct,
       { productId := "p1", technicalArticleNumber := "tan1", attrs := "z"
         priceBasicPrice := some 6, priceQuantityPrice := none }] =
      [{ productId := "p1", technicalArticleNumber := "tan1", attrs := "z"
         priceBasicPrice := some 6, priceQuantityPrice := none }]
  ∧ (saveProducts 0
      [{ productId := "p1", technicalArticleNumber := "tan1", attrs := "z"
         priceBasicPrice := some 6, priceQuantityPrice := none }]
      dbWithTodayPrice).products =
      [{ productId := "p1", technicalArticleNumber := "tan1", attrs := "z" }]
  ∧ dbWithTodayPrice.prices.length = 1
  ∧ ((saveProducts 0 [sampleApiProduct] dbWithTodayPrice).prices.filter
      (fun r => r.productId = "p1" ∧ r.date = 0)).length = 2 := by
  refine ⟨rfl, rfl, rfl, rfl⟩
